import Mathlib

/-!
Shallow embedding of the speech-synthesis fallback dispatcher and the
audio-assembly pipeline of the `suomen-mestari` repository
(`src/audio_processor.py`, `src/tts_engine.py`, `src/engines/*.py`,
`src/main.py`), together with theorems settling the specification claims.

Modelling conventions:
* Python strings are `List Char` (`Str`); helper functions `strLower`,
  `isPrefixOf`, `splitOnChar` mirror `str.lower`, `str.startswith`,
  `str.split`.
* A decoded audio stream (`pydub.AudioSegment`) is a list of one-millisecond
  frames (`Sample`); a frame is tagged with its provenance: decoded from a
  clip file (`Sample.fromClip v`, `v` the raw frame value) or produced by
  `AudioSegment.silent` (`Sample.gap`).  Concatenation of segments is list
  append, the duration in ms is the list length, and Python truthiness of a
  segment (`if not audio`) is emptiness.
* The filesystem holding the per-language clip files is a partial map from
  abstract paths to raw frame lists; `_load_audio` either returns the decoded
  file or `none` (missing file or decode error, both logged and absorbed).
* Fallible external calls (network fetches, `mkdir`, subprocesses) are
  explicit environment fields; a call that the Python code leaves unguarded
  so that its exception escapes is an `Except Unit` value whose `.error`
  constructor models the raised exception.
-/

/-! ## Python-string model -/

abbrev Str := List Char

def str (s : String) : Str := s.data

/-- ASCII variant of `str.lower` (engine names, language codes and locales in
this program are ASCII). -/
def asciiLower (c : Char) : Char :=
  if 'A' ≤ c ∧ c ≤ 'Z' then Char.ofNat (c.toNat + 32) else c

def strLower (s : Str) : Str := s.map asciiLower

/-- `str.split(sep)` for a one-character separator, as used by
`model.split('/')` in `coqui_engine.get_voices`. -/
def splitOnChar (sep : Char) : Str → List Str
  | [] => [[]]
  | a :: rest =>
      match splitOnChar sep rest with
      | [] => [[a]]
      | h :: t => if a = sep then [] :: h :: t else (a :: h) :: t

/-! ## Audio model (`pydub.AudioSegment`) -/

/-- One millisecond of audio: either a frame decoded from a clip file
(with its raw value) or a frame of silence inserted by the assembler. -/
inductive Sample where
  | fromClip (v : Nat)
  | gap
deriving DecidableEq, Repr

abbrev AudioSeg := List Sample

/-- Abstract path of a clip file. -/
abbrev AudioPath := Nat

/-- The clip files on disk: raw frame data per path, `none` when the path is
missing or undecodable. -/
abbrev ClipStore := AudioPath → Option (List Nat)

/-- `AudioProcessor._create_silence`: `AudioSegment.silent(duration=ms)`. -/
def create_silence (ms : Nat) : AudioSeg := List.replicate ms Sample.gap

/-- `AudioProcessor._load_audio`: returns the decoded file, or `None` when the
file is missing or any decode exception occurs (all absorbed into the
`ClipStore` map). -/
def load_audio (fs : ClipStore) (p : AudioPath) : Option AudioSeg :=
  (fs p).map (fun l => l.map Sample.fromClip)

/-- Timing and quality settings of `AudioProcessor.__init__` (milliseconds,
already truncated from the configured seconds by `int(x * 1000)`). -/
structure AudioConfig where
  between_languages_ms : Nat
  between_items_ms : Nat
deriving DecidableEq, Repr

/-- `AudioProcessor._combine_translation_pair`: loads both clips, fails
(`None`) when either is `None` or falsy (zero-length), otherwise returns
main clip ++ between-languages silence ++ second clip, plus a
between-items silence when `add_item_silence`. -/
def combine_translation_pair (cfg : AudioConfig) (fs : ClipStore)
    (main_path second_path : AudioPath) (add_item_silence : Bool) :
    Option AudioSeg :=
  match load_audio fs main_path, load_audio fs second_path with
  | some main_audio, some second_audio =>
      if main_audio.isEmpty || second_audio.isEmpty then none
      else some (main_audio ++ create_silence cfg.between_languages_ms ++
        second_audio ++
        (if add_item_silence then create_silence cfg.between_items_ms else []))
  | _, _ => none

/-- The `for i, (main_path, second_path) in enumerate(audio_pairs)` loop body
of `_combine_multiple_pairs`: each pair combined with
`add_item_silence = (i < total_pairs - 1)` is appended when truthy
(non-`None` and non-empty), otherwise skipped with a warning. -/
def combine_pairs_loop (cfg : AudioConfig) (fs : ClipStore) (total : Nat) :
    Nat → List (AudioPath × AudioPath) → AudioSeg
  | _, [] => []
  | i, (main_path, second_path) :: rest =>
      (match combine_translation_pair cfg fs main_path second_path
          (decide (i < total - 1)) with
       | some a => if 0 < a.length then a else []
       | none => []) ++ combine_pairs_loop cfg fs total (i + 1) rest

/-- `AudioProcessor._combine_multiple_pairs`: `None` on an empty input list,
otherwise the loop's concatenation, returned only when non-empty. -/
def combine_multiple_pairs (cfg : AudioConfig) (fs : ClipStore)
    (audio_pairs : List (AudioPath × AudioPath)) : Option AudioSeg :=
  if audio_pairs.isEmpty then none
  else
    let combined := combine_pairs_loop cfg fs audio_pairs.length 0 audio_pairs
    if 0 < combined.length then some combined else none

/-- The cleanup loop of `process_translation_batch`: `unlink(missing_ok=True)`
on every clip of every pair. -/
def delete_pair_files (fs : ClipStore)
    (audio_pairs : List (AudioPath × AudioPath)) : ClipStore :=
  fun p =>
    if audio_pairs.any (fun q => q.1 = p || q.2 = p) then none else fs p

/-- `AudioProcessor.process_translation_batch`.  The export
(`_save_audio`) writes the combined track to the output path — outside the
clip-file map modelled here — and reports success as the boolean `save_ok`;
clip files are deleted only after a successful export when
`keep_individual` is false.  Returns (overall success, clip files left). -/
def process_translation_batch (cfg : AudioConfig) (fs : ClipStore)
    (save_ok : Bool) (audio_pairs : List (AudioPath × AudioPath))
    (keep_individual : Bool) : Bool × ClipStore :=
  match combine_multiple_pairs cfg fs audio_pairs with
  | none => (false, fs)
  | some _ =>
      if save_ok && !keep_individual then (true, delete_pair_files fs audio_pairs)
      else (save_ok, fs)

/-- The per-pair block the specification's `combine_batch` description
promises: each pair contributes first clip, a between-languages gap, second
clip, and a between-items gap after every pair except the last. -/
def spec_expected_track (cfg : AudioConfig) :
    List (List Nat × List Nat) → AudioSeg
  | [] => []
  | [c] => c.1.map Sample.fromClip ++ create_silence cfg.between_languages_ms ++
      c.2.map Sample.fromClip
  | c :: rest => c.1.map Sample.fromClip ++
      create_silence cfg.between_languages_ms ++ c.2.map Sample.fromClip ++
      create_silence cfg.between_items_ms ++ spec_expected_track cfg rest

/-- Result of one pair at loop index `i` inside `_combine_multiple_pairs`. -/
def pair_result (cfg : AudioConfig) (fs : ClipStore) (total i : Nat)
    (p : AudioPath × AudioPath) : Option AudioSeg :=
  combine_translation_pair cfg fs p.1 p.2 (decide (i < total - 1))

/-! ## Edge TTS engine (`src/engines/edge_tts_engine.py`) -/

/-- One entry of the catalog returned by `edge_tts.list_voices()`:
`voice.get('Locale', '')` and `voice.get('ShortName')`. -/
structure EdgeVoiceInfo where
  locale : Str
  shortName : Option Str
deriving DecidableEq, Repr

/-- Outcome of fetching `edge_tts.list_voices()` inside `list_all_voices`.
The call is not guarded by a `try`, so a lookup failure (`.error ()`) raises
out of `get_voices`; a falsy result is the empty list. -/
abbrev EdgeCatalog := Except Unit (List EdgeVoiceInfo)

/-- `EdgeTTSEngine.get_voices`: keeps the short names of catalog voices whose
lowered locale starts with `language.lower() + "-"` and are truthy; a catalog
fetch error propagates as an exception. -/
def edge_get_voices (catalog : EdgeCatalog) (language : Str) :
    Except Unit (List Str) :=
  match catalog with
  | .error e => .error e
  | .ok voices =>
      .ok (voices.filterMap (fun v =>
        if (strLower language ++ [Char.ofNat 45]).isPrefixOf (strLower v.locale) then
          match v.shortName with
          | some sn => if sn.isEmpty then none else some sn
          | none => none
        else none))

/-- The shared default-voice conditional of `get_default_voice` (identical
in the Edge, Piper and Coqui engines): the truthy configured mapping when
present in the available voices, else the first available voice, else
`None`. -/
def resolve_default_voice (configured : Option Str)
    (available_voices : List Str) : Option Str :=
  match configured with
  | some cv =>
      if !cv.isEmpty && available_voices.contains cv then some cv
      else available_voices.head?
  | none => available_voices.head?

/-- `EdgeTTSEngine.get_default_voice`: the configured mapping when truthy and
present in `get_voices`, else the first catalog entry, else `None`; a catalog
fetch error propagates. -/
def edge_get_default_voice (configured : Str → Option Str)
    (catalog : EdgeCatalog) (language : Str) : Except Unit (Option Str) :=
  match edge_get_voices catalog language with
  | .error e => .error e
  | .ok available_voices =>
      .ok (resolve_default_voice (configured language) available_voices)

/-- Environment of one `EdgeTTSEngine.generate_speech` call: the config
`voices` mapping, the catalog fetch outcome, whether
`output_path.parent.mkdir` succeeds (it is not inside a `try`, so failure
raises), and the outcome of the guarded async synthesis per voice. -/
structure EdgeEnv where
  configured_voices : Str → Option Str
  catalog : EdgeCatalog
  mkdir_ok : Bool
  synth_ok : Str → Bool

/-- Observable outcome of `EdgeTTSEngine.generate_speech`: the returned
boolean or a raised exception, and whether the synthesis transport itself was
invoked. -/
structure EdgeRun where
  result : Except Unit Bool
  synthAttempted : Bool
deriving Repr

/-- The tail of `EdgeTTSEngine.generate_speech` once a voice is fixed:
unguarded `mkdir`, then `_generate_speech_async` (which swallows its own
exceptions and returns a boolean). -/
def edge_synthesize (env : EdgeEnv) (voice : Str) : EdgeRun :=
  if env.mkdir_ok then ⟨.ok (env.synth_ok voice), true⟩
  else ⟨.error (), false⟩

/-- `generate_speech` when the caller passed no (truthy) voice: resolve via
`get_default_voice`, return `False` without synthesizing when no voice
exists, propagate a catalog lookup exception. -/
def edge_resolve_and_synthesize (env : EdgeEnv) (language : Str) : EdgeRun :=
  match edge_get_default_voice env.configured_voices env.catalog language with
  | .error e => ⟨.error e, false⟩
  | .ok none => ⟨.ok false, false⟩
  | .ok (some v) => edge_synthesize env v

/-- `EdgeTTSEngine.generate_speech` (`if not voice:` treats `None` and the
empty string as absent). -/
def edge_generate_speech (env : EdgeEnv) (language : Str)
    (voice : Option Str) : EdgeRun :=
  match voice with
  | some v => if v.isEmpty then edge_resolve_and_synthesize env language
      else edge_synthesize env v
  | none => edge_resolve_and_synthesize env language

/-! ## gTTS engine (`src/engines/gtts_engine.py`) -/

/-- Environment of one `GTTSEngine.generate_speech` call: the supported
language table of `gtts.lang.tts_langs()` (a built-in table, no network),
and the outcomes of the `mkdir` and `gTTS(...).save(...)` steps — both
inside the engine's `try`, so their failures are returned, not raised. -/
structure GttsEnv where
  tts_langs : List Str
  mkdir_ok : Bool
  save_ok : Bool

/-- `GTTSEngine._get_language_code`: the language itself when supported. -/
def gtts_get_language_code (env : GttsEnv) (language : Str) : Option Str :=
  if env.tts_langs.contains language then some language else none

/-- `GTTSEngine.get_voices`: `[lang_code] if lang_code else []`. -/
def gtts_get_voices (env : GttsEnv) (language : Str) : List Str :=
  match gtts_get_language_code env language with
  | some c => [c]
  | none => []

/-- `TTSEngine.get_default_voice` (`src/engines/base.py`): first voice or
`None`. -/
def base_get_default_voice (voices : List Str) : Option Str := voices.head?

/-- `GTTSEngine`'s default voice (inherited from `TTSEngine`). -/
def gtts_get_default_voice (env : GttsEnv) (language : Str) : Option Str :=
  base_get_default_voice (gtts_get_voices env language)

/-- `GTTSEngine.generate_speech`: `False` on an unsupported language, and the
guarded mkdir+synthesis outcome otherwise; every failure path returns a
boolean, none raises. -/
def gtts_generate_speech (env : GttsEnv) (language : Str) : Except Unit Bool :=
  match gtts_get_language_code env language with
  | none => .ok false
  | some _ => .ok (env.mkdir_ok && env.save_ok)

/-! ## Piper engine (`src/engines/piper_engine.py`) -/

/-- Outcome of the `python3 -m piper.download_voices` subprocess inside
`PiperEngine.get_voices`: `none` when the call raised (timeout, missing
module, any exception — all caught) or exited non-zero; `some lines` the
parsed stdout lines on exit code 0. -/
structure PiperEnv where
  download_voices_output : Option (List Str)

/-- `PiperEngine.get_voices`: filters the listed voices to those starting
with `language + "_"` (case-sensitive); the empty list on every error. -/
def piper_get_voices (env : PiperEnv) (language : Str) : List Str :=
  match env.download_voices_output with
  | none => []
  | some all_voices =>
      all_voices.filter (fun v => (language ++ [Char.ofNat 95]).isPrefixOf v)

/-! ## Coqui engine (`src/engines/coqui_engine.py`) -/

def bark_model : Str := str "tts_models/multilingual/multi-dataset/bark"

/-- `CoquiEngine.list_available_models`: the fetched `TTS.list_models()`
with the first `bark` entry removed (the bare `except: pass` makes a failed
`remove` harmless), the empty list when the fetch raised or was falsy. -/
def coqui_list_available_models (fetched : Option (List Str)) : List Str :=
  match fetched with
  | none => []
  | some l =>
      let cached := l.erase bark_model
      if cached.isEmpty then [] else cached

/-- The per-model filter of `CoquiEngine.get_voices`: a `tts_models/` path
whose language segment is `multilingual`, equals the language
case-insensitively, or starts with `language.lower() + "_"`. -/
def coqui_model_matches (language model : Str) : Bool :=
  (str "tts_models/").isPrefixOf model &&
    (let parts := splitOnChar '/' model
     decide (2 ≤ parts.length) &&
       (let model_lang := parts.getD 1 []
        model_lang == str "multilingual" ||
          strLower model_lang == strLower language ||
          (strLower language ++ [Char.ofNat 95]).isPrefixOf (strLower model_lang)))

/-- `CoquiEngine.get_voices`: never raises; filters the cached model list. -/
def coqui_get_voices (fetched : Option (List Str)) (language : Str) :
    List Str :=
  (coqui_list_available_models fetched).filter (coqui_model_matches language)

/-- `CoquiEngine.get_default_voice`: configured mapping when truthy and
available, else first available model, else `None`. -/
def coqui_get_default_voice (configured : Str → Option Str)
    (fetched : Option (List Str)) (language : Str) : Option Str :=
  resolve_default_voice (configured language) (coqui_get_voices fetched language)

/-- Environment of one `CoquiEngine.generate_speech` call.  `synth_ok` is
whether `tts_to_file` completes; when it raises, `synth_writes_on_raise`
records whether a partial temporary WAV was left behind by the external
library.  `mkdir_ok` and `load_model_ok` failures raise inside the outer
`try` and so are returned as `False`. -/
structure CoquiEnv where
  default_models : Str → Option Str
  fetched_models : Option (List Str)
  mkdir_ok : Bool
  load_model_ok : Bool
  synth_ok : Bool
  synth_writes_on_raise : Bool
  pydub_ok : Bool
  decode_ok : Bool
  transcode_ok : Bool

/-- Observable outcome of `CoquiEngine.generate_speech`: the returned value
and whether the temporary WAV file still exists afterwards (it does not
exist before the call). -/
structure CoquiRun where
  result : Except Unit Bool
  temp_wav_exists : Bool
deriving Repr

/-- `CoquiEngine.generate_speech`.  After a completed synthesis the inner
`try/except/finally` guarantees `temp_wav_path.unlink(missing_ok=True)` on
the import-failure, decode-failure, transcode-failure and success paths. -/
def coqui_generate_speech (env : CoquiEnv) (language : Str)
    (voice : Option Str) : CoquiRun :=
  let resolved := match voice with
    | some s => if s.isEmpty then
        coqui_get_default_voice env.default_models env.fetched_models language
      else some s
    | none => coqui_get_default_voice env.default_models env.fetched_models language
  match resolved with
  | none => ⟨.ok false, false⟩
  | some _ =>
      if !env.mkdir_ok then ⟨.ok false, false⟩
      else if !env.load_model_ok then ⟨.ok false, false⟩
      else if !env.synth_ok then ⟨.ok false, env.synth_writes_on_raise⟩
      else if !env.pydub_ok then ⟨.ok false, false⟩
      else if !env.decode_ok then ⟨.ok false, false⟩
      else if !env.transcode_ok then ⟨.ok false, false⟩
      else ⟨.ok true, false⟩

/-! ## Fallback dispatcher (`src/tts_engine.py`) -/

/-- The `general` section of the configuration read by `TTSEngineManager`:
`default_engine` (`none` when absent) and `fallback_order`. -/
structure ManagerConfig where
  default_engine : Option Str
  fallback_order : List Str

/-- State of an initialized `TTSEngineManager`: its configuration and
`available_engines`, the names appended during `_initialize_engines` in
registry (`ENGINE_CLASSES`) order; `self.engines` has exactly these keys. -/
structure ManagerState where
  cfg : ManagerConfig
  available_engines : List Str

/-- The accumulation pattern `for e in src: if e not in acc: acc.append(e)`
used both by `_get_fallback_engines` and by the `engine_order` construction
of `generate_with_fallback`. -/
def addMissing (acc : List Str) : List Str → List Str
  | [] => acc
  | e :: rest => addMissing (if acc.contains e then acc else acc ++ [e]) rest

/-- `TTSEngineManager._get_fallback_engines`: the configured fallback order
filtered to available engines, then every available engine not already
listed. -/
def get_fallback_engines (st : ManagerState) : List Str :=
  addMissing (st.cfg.fallback_order.filter (st.available_engines.contains ·))
    st.available_engines

/-- `engine_order` after the `preferred_engine` step of
`generate_with_fallback`: the truthy preferred engine when available. -/
def preferred_part (st : ManagerState) (preferred : Option Str) : List Str :=
  match preferred with
  | some p => if !p.isEmpty && st.available_engines.contains p then [p] else []
  | none => []

/-- `engine_order` after the `default_engine` step: the truthy configured
default appended when not already present. -/
def default_part (st : ManagerState) (o1 : List Str) : List Str :=
  match st.cfg.default_engine with
  | some d => if !d.isEmpty && !o1.contains d then o1 ++ [d] else o1
  | none => o1

/-- The `engine_order` list built at the top of
`TTSEngineManager.generate_with_fallback`: the truthy preferred engine when
available, the truthy configured default when not already present, then the
fallback engines not already present. -/
def build_engine_order (st : ManagerState) (preferred : Option Str) :
    List Str :=
  addMissing (default_part st (preferred_part st preferred))
    (get_fallback_engines st)

/-- The `for engine_name in engine_order` loop of `generate_with_fallback`:
names absent from `self.engines` (equivalently, from `available_engines`)
are skipped; `gen e` is the outcome of `engine.generate_speech` for engine
`e` (an exception is caught and counts as failure).  Returns the final
boolean together with the engines whose `generate_speech` was invoked, in
invocation order. -/
def try_engines (gen : Str → Bool) (engines : List Str) :
    List Str → Bool × List Str
  | [] => (false, [])
  | e :: rest =>
      if engines.contains e then
        if gen e then (true, [e])
        else
          let r := try_engines gen engines rest
          (r.1, e :: r.2)
      else try_engines gen engines rest

/-- `TTSEngineManager.generate_with_fallback` (result). -/
def generate_with_fallback (st : ManagerState) (gen : Str → Bool)
    (preferred : Option Str) : Bool :=
  (try_engines gen st.available_engines (build_engine_order st preferred)).1

/-- The engines `generate_with_fallback` actually invokes, in order. -/
def attempted_engines (st : ManagerState) (gen : Str → Bool)
    (preferred : Option Str) : List Str :=
  (try_engines gen st.available_engines (build_engine_order st preferred)).2

/-- First-occurrence deduplication, used to phrase the specification's
candidate order. -/
def dedupKeepFirst (l : List Str) : List Str := addMissing [] l

/-- The specification's words "`preferred` (if available) first". -/
def spec_preferred_part (st : ManagerState) (preferred : Option Str) :
    List Str :=
  match preferred with
  | some p => if st.available_engines.contains p then [p] else []
  | none => []

/-- The specification's words "then the configured default". -/
def spec_default_part (st : ManagerState) : List Str :=
  match st.cfg.default_engine with
  | some d => [d]
  | none => []

/-- The candidate order exactly as the specification words it: "`preferred`
(if available) first, then the configured default (if not already included),
then the configured fallback order filtered to available backends, then any
remaining available backends in registry order" — the "not already
included" clauses being the first-occurrence deduplication. -/
def spec_candidate_order (st : ManagerState) (preferred : Option Str) :
    List Str :=
  dedupKeepFirst
    (spec_preferred_part st preferred ++ spec_default_part st ++
      st.cfg.fallback_order.filter (st.available_engines.contains ·) ++
      st.available_engines)

/-! ## Batch pipeline (`src/main.py`, `TTSProcessor.process_translation_file`) -/

/-- One language field of a translation item: (language name, text), in the
item's insertion order. -/
abbrev ItemField := Str × Str

/-- Identity of the per-item temporary clip file
`{temp_path}/{lang_name}_{i:03d}.mp3`: item index and language name. -/
abbrev ClipRef := Nat × Str

/-- The inner `for lang_idx, (lang_name, text) in enumerate(item_dict.items())`
loop: empty texts are skipped, a synthesis failure breaks out and marks the
item failed (`none`); otherwise the clip paths accumulate in language
order.  `synth lang text` is the outcome of
`engine_manager.generate_with_fallback` for that field. -/
def collect_item_paths (synth : Str → Str → Bool) (i : Nat) :
    List ItemField → Option (List ClipRef)
  | [] => some []
  | (lang_name, text) :: rest =>
      if text.isEmpty then collect_item_paths synth i rest
      else if synth lang_name text then
        (collect_item_paths synth i rest).map (((i, lang_name)) :: ·)
      else none

/-- The per-item pairing step: `if success_all and len(audio_paths) >= 2:
audio_pairs.append((audio_paths[0], audio_paths[1]))` — only the first two
generated clips enter the pair, later ones are dropped. -/
def item_pair (synth : Str → Str → Bool) (i : Nat)
    (fields : List ItemField) : Option (ClipRef × ClipRef) :=
  match collect_item_paths synth i fields with
  | some (a :: b :: _) => some (a, b)
  | _ => none

/-- The `audio_pairs` list accumulated over all translation items. -/
def batch_audio_pairs (synth : Str → Str → Bool)
    (items : List (List ItemField)) : List (ClipRef × ClipRef) :=
  (items.enum.map (fun p => item_pair synth p.1 p.2)).reduceOption

/-- The attempted-engines list of a straight-line fallback scan: every
engine up to and including the first success, the whole list when all
fail. -/
def attempts_spec (gen : Str → Bool) : List Str → List Str
  | [] => []
  | e :: rest => if gen e then [e] else e :: attempts_spec gen rest

/-! ## Concrete environments used by witnesses and counterexamples -/

/-- A small timing configuration (2 ms between languages, 1 ms between
items). -/
def exCfg : AudioConfig := ⟨2, 1⟩

/-- Clip store with two decodable one-frame clips at paths 0 and 1. -/
def exStore : ClipStore := fun p =>
  if p = 0 then some [5] else if p = 1 then some [6] else none

/-- Clip store for the trailing-gap counterexample: paths 0 and 1 decode,
paths 2 and 3 are missing. -/
def exStoreC3 : ClipStore := fun p =>
  if p = 0 then some [7] else if p = 1 then some [8] else none

/-- A dispatcher state with four available engines, a configured default and
a two-engine fallback order. -/
def exManagerState : ManagerState :=
  ⟨⟨some (str "edge-tts"), [str "gtts", str "piper"]⟩,
    [str "edge-tts", str "gtts", str "piper", str "coqui"]⟩

/-- A synthesis outcome in which only `gtts` succeeds. -/
def exGen : Str → Bool := fun e => e == str "gtts"

/-! ## Lemmas about the audio assembler -/

/-- A pair succeeding inside `_combine_multiple_pairs`: both clips load and
are non-empty. -/
def GoodPair (fs : ClipStore) (p : AudioPath × AudioPath)
    (c : List Nat × List Nat) : Prop :=
  fs p.1 = some c.1 ∧ fs p.2 = some c.2 ∧ c.1 ≠ [] ∧ c.2 ≠ []

lemma combine_translation_pair_of_good (cfg : AudioConfig) (fs : ClipStore)
    {x y : AudioPath} {m s : List Nat} (b : Bool)
    (hm : fs x = some m) (hs : fs y = some s) (hm' : m ≠ []) (hs' : s ≠ []) :
    combine_translation_pair cfg fs x y b =
      some (m.map Sample.fromClip ++ create_silence cfg.between_languages_ms ++
        s.map Sample.fromClip ++
        (if b then create_silence cfg.between_items_ms else [])) := by
  simp [combine_translation_pair, load_audio, hm, hs, hm', hs']

lemma combine_translation_pair_some_inv {cfg : AudioConfig} {fs : ClipStore}
    {x y : AudioPath} {b : Bool} {a : AudioSeg}
    (h : combine_translation_pair cfg fs x y b = some a) :
    ∃ m s, fs x = some m ∧ fs y = some s ∧ m ≠ [] ∧ s ≠ [] ∧
      a = m.map Sample.fromClip ++ create_silence cfg.between_languages_ms ++
        s.map Sample.fromClip ++
        (if b then create_silence cfg.between_items_ms else []) := by
  unfold combine_translation_pair load_audio at h
  cases hx : fs x with
  | none => rw [hx] at h; simp at h
  | some m =>
    cases hy : fs y with
    | none => rw [hx, hy] at h; simp at h
    | some s =>
      rw [hx, hy] at h
      simp only [Option.map_some'] at h
      by_cases hm : m = []
      · subst hm; simp at h
      · by_cases hs : s = []
        · subst hs; simp at h
        · refine ⟨m, s, rfl, rfl, hm, hs, ?_⟩
          simp [hm, hs] at h
          simp only [List.append_assoc]
          exact h.symm

lemma combine_translation_pair_some_ne_nil {cfg : AudioConfig}
    {fs : ClipStore} {x y : AudioPath} {b : Bool} {a : AudioSeg}
    (h : combine_translation_pair cfg fs x y b = some a) : a ≠ [] := by
  obtain ⟨m, s, -, -, hm', -, rfl⟩ := combine_translation_pair_some_inv h
  simp [hm']

lemma combine_pairs_loop_cons (cfg : AudioConfig) (fs : ClipStore)
    (total i : Nat) (m s : AudioPath) (rest : List (AudioPath × AudioPath)) :
    combine_pairs_loop cfg fs total i ((m, s) :: rest) =
      (match combine_translation_pair cfg fs m s (decide (i < total - 1)) with
       | some a => if 0 < a.length then a else []
       | none => []) ++ combine_pairs_loop cfg fs total (i + 1) rest := rfl

lemma combine_pairs_contribution (cfg : AudioConfig) (fs : ClipStore)
    (total i : Nat) (p : AudioPath × AudioPath) :
    (match combine_translation_pair cfg fs p.1 p.2 (decide (i < total - 1)) with
     | some a => if 0 < a.length then a else []
     | none => []) = (pair_result cfg fs total i p).getD [] := by
  unfold pair_result
  cases h : combine_translation_pair cfg fs p.1 p.2 (decide (i < total - 1)) with
  | none => simp
  | some a =>
    have ha := combine_translation_pair_some_ne_nil h
    simp [List.length_pos.mpr ha]

lemma combine_pairs_loop_eq_flatten (cfg : AudioConfig) (fs : ClipStore)
    (total : Nat) :
    ∀ (l : List (AudioPath × AudioPath)) (i : Nat),
      combine_pairs_loop cfg fs total i l =
        ((List.enumFrom i l).map
          (fun jp => (pair_result cfg fs total jp.1 jp.2).getD [])).flatten
  | [], _ => rfl
  | (m, s) :: rest, i => by
    rw [combine_pairs_loop_cons]
    rw [combine_pairs_loop_eq_flatten cfg fs total rest (i + 1)]
    have h := combine_pairs_contribution cfg fs total i (m, s)
    simp only [List.enumFrom, List.map_cons, List.flatten_cons]
    rw [← h]

lemma combine_pairs_loop_append (cfg : AudioConfig) (fs : ClipStore)
    (total : Nat) :
    ∀ (l₁ l₂ : List (AudioPath × AudioPath)) (i : Nat),
      combine_pairs_loop cfg fs total i (l₁ ++ l₂) =
        combine_pairs_loop cfg fs total i l₁ ++
          combine_pairs_loop cfg fs total (i + l₁.length) l₂ := by
  intro l₁ l₂ i
  rw [combine_pairs_loop_eq_flatten, combine_pairs_loop_eq_flatten,
    combine_pairs_loop_eq_flatten, List.enumFrom_append, List.map_append,
    List.flatten_append]

lemma spec_expected_track_cons_cons (cfg : AudioConfig)
    (c c₂ : List Nat × List Nat) (t : List (List Nat × List Nat)) :
    spec_expected_track cfg (c :: c₂ :: t) =
      c.1.map Sample.fromClip ++ create_silence cfg.between_languages_ms ++
        c.2.map Sample.fromClip ++ create_silence cfg.between_items_ms ++
        spec_expected_track cfg (c₂ :: t) := rfl

lemma spec_expected_track_length (cfg : AudioConfig) :
    ∀ (t : List (List Nat × List Nat)) (c : List Nat × List Nat),
      (spec_expected_track cfg (c :: t)).length =
        ((c :: t).map (fun c => c.1.length + c.2.length)).sum +
          (t.length + 1) * cfg.between_languages_ms +
          t.length * cfg.between_items_ms
  | [], c => by
    simp [spec_expected_track, create_silence]
    ring
  | c₂ :: t', c => by
    rw [spec_expected_track_cons_cons]
    simp only [List.length_append, List.length_map, List.map_cons,
      List.sum_cons, List.length_cons, create_silence, List.length_replicate]
    rw [spec_expected_track_length cfg t' c₂]
    simp only [List.map_cons, List.sum_cons]
    ring

lemma combine_pairs_loop_all_good (cfg : AudioConfig) (fs : ClipStore) :
    ∀ {pairs : List (AudioPath × AudioPath)}
      {clips : List (List Nat × List Nat)} (i total : Nat),
      i + pairs.length = total → pairs ≠ [] →
      List.Forall₂ (GoodPair fs) pairs clips →
      combine_pairs_loop cfg fs total i pairs = spec_expected_track cfg clips := by
  intro pairs clips i total htot hne hall
  induction hall generalizing i with
  | nil => exact absurd rfl hne
  | @cons p c rest restc hpc htail ih =>
    obtain ⟨hm, hs, hm', hs'⟩ := hpc
    obtain ⟨m, s⟩ := p
    cases htail with
    | nil =>
      have hi : ¬ (i < total - 1) := by
        simp only [List.length_cons, List.length_nil] at htot
        omega
      rw [combine_pairs_loop_cons,
        combine_translation_pair_of_good cfg fs (decide (i < total - 1)) hm hs hm' hs']
      have h1 : 0 < c.1.length := List.length_pos.mpr hm'
      simp [hi, h1, spec_expected_track, combine_pairs_loop, List.append_assoc]
    | @cons q c₂ rest' restc' hqc htail' =>
      have hi : i < total - 1 := by
        simp only [List.length_cons] at htot
        omega
      rw [combine_pairs_loop_cons,
        combine_translation_pair_of_good cfg fs (decide (i < total - 1)) hm hs hm' hs']
      have htot' : (i + 1) + (q :: rest').length = total := by
        simp only [List.length_cons] at htot ⊢
        omega
      rw [ih (i + 1) htot' (by simp) ]
      have h1 : 0 < c.1.length := List.length_pos.mpr hm'
      simp [hi, h1, spec_expected_track_cons_cons, List.append_assoc]

/-! ## Claim C1 -/

/-- C1: for a non-empty list of N audio pairs in which every pair loads and
combines successfully, `_combine_multiple_pairs` returns the concatenation,
in input order, of first clip, between-languages silence, second clip, and —
for every pair except the last — a between-items silence; its duration is
the sum of the clip durations plus N·`between_languages_ms` plus
(N−1)·`between_items_ms`. -/
theorem C1_combine_batch (cfg : AudioConfig) (fs : ClipStore)
    (pairs : List (AudioPath × AudioPath)) (clips : List (List Nat × List Nat))
    (hne : pairs ≠ [])
    (hall : List.Forall₂ (GoodPair fs) pairs clips) :
    combine_multiple_pairs cfg fs pairs = some (spec_expected_track cfg clips) ∧
    (spec_expected_track cfg clips).length =
      (clips.map (fun c => c.1.length + c.2.length)).sum +
        pairs.length * cfg.between_languages_ms +
        (pairs.length - 1) * cfg.between_items_ms := by
  cases hall with
  | nil => exact absurd rfl hne
  | @cons p c prest t hpc htail =>
    have hloop := combine_pairs_loop_all_good cfg fs 0 ((p :: prest).length)
      (by omega) (by simp) (List.Forall₂.cons hpc htail)
    have h1 : 0 < c.1.length := List.length_pos.mpr hpc.2.2.1
    have hpos : 0 < (spec_expected_track cfg (c :: t)).length := by
      cases t with
      | nil =>
        simp only [spec_expected_track, List.length_append, List.length_map]
        omega
      | cons c₂ t' =>
        rw [spec_expected_track_cons_cons]
        simp only [List.length_append, List.length_map]
        omega
    constructor
    · unfold combine_multiple_pairs
      simp only [List.isEmpty_cons, Bool.false_eq_true, if_false]
      rw [hloop]
      simp [hpos]
    · rw [spec_expected_track_length cfg t c]
      have hl : prest.length = t.length := htail.length_eq
      simp [List.length_cons, hl]

/-- Witness for C1 at a concrete one-pair batch over `exStore`. -/
theorem C1_combine_batch_witness :
    combine_multiple_pairs exCfg exStore [(0, 1)] =
      some (spec_expected_track exCfg [([5], [6])]) ∧
    (spec_expected_track exCfg [([5], [6])]).length =
      (([([5], [6])] : List (List Nat × List Nat)).map
        (fun c => c.1.length + c.2.length)).sum +
        ([(0, 1)] : List (AudioPath × AudioPath)).length *
          exCfg.between_languages_ms +
        (([(0, 1)] : List (AudioPath × AudioPath)).length - 1) *
          exCfg.between_items_ms :=
  C1_combine_batch exCfg exStore [(0, 1)] [([5], [6])] (by decide)
    (List.Forall₂.cons ⟨by decide, by decide, by decide, by decide⟩
      List.Forall₂.nil)

/-! ## Claim C3 -/

/-- C3 (counterexample): with the default-style configuration and a batch
whose last pair fails to load while the first succeeds,
`_combine_multiple_pairs` returns a track that ends in an inserted
between-items silence gap — refuting "any non-none track never ends with a
silence gap" for lists containing failing pairs. -/
theorem C3_counterexample :
    combine_multiple_pairs exCfg exStoreC3 [(0, 1), (2, 3)] =
      some [Sample.fromClip 7, Sample.gap, Sample.gap, Sample.fromClip 8,
        Sample.gap] ∧
    ([Sample.fromClip 7, Sample.gap, Sample.gap, Sample.fromClip 8,
        Sample.gap] : AudioSeg).getLast? = some Sample.gap := by
  constructor
  · decide
  · decide

/-- C3 (amended): whenever the final pair of the list itself combines
successfully (in particular whenever every pair does), the non-none track
returned by `_combine_multiple_pairs` ends with a decoded clip frame, never
with an inserted silence gap. -/
theorem C3_no_trailing_gap (cfg : AudioConfig) (fs : ClipStore)
    (pairs : List (AudioPath × AudioPath)) (p : AudioPath × AudioPath)
    (a : AudioSeg) (hlast : pairs.getLast? = some p)
    (hp : combine_translation_pair cfg fs p.1 p.2 false = some a) :
    ∃ t, combine_multiple_pairs cfg fs pairs = some t ∧
      ∃ v, t.getLast? = some (Sample.fromClip v) := by
  have hne : pairs ≠ [] := by
    intro h
    rw [h] at hlast
    simp at hlast
  obtain ⟨l, q, rfl⟩ : ∃ l q, pairs = l ++ [q] :=
    ⟨pairs.dropLast, pairs.getLast hne, (List.dropLast_append_getLast hne).symm⟩
  have hq : q = p := by
    have hql : (l ++ [q]).getLast? = some q := by simp
    rw [hql] at hlast
    exact Option.some_injective _ hlast
  have hpq : combine_translation_pair cfg fs q.1 q.2 false = some a := by
    rw [hq]
    exact hp
  obtain ⟨m, s, hm, hs, hm', hs', ha⟩ := combine_translation_pair_some_inv hpq
  have hane : a ≠ [] := combine_translation_pair_some_ne_nil hpq
  have hp' : combine_translation_pair cfg fs q.1 q.2 false = some a := hpq
  obtain ⟨pm, ps⟩ := q
  simp only at hp' hm hs
  have key : combine_pairs_loop cfg fs (l ++ [(pm, ps)]).length 0 (l ++ [(pm, ps)]) =
      combine_pairs_loop cfg fs (l ++ [(pm, ps)]).length 0 l ++ a := by
    rw [combine_pairs_loop_append]
    congr 1
    rw [combine_pairs_loop_cons]
    have hflag : ¬ (0 + l.length < (l ++ [(pm, ps)]).length - 1) := by simp
    rw [decide_eq_false hflag, hp']
    have hlp : 0 < a.length := List.length_pos.mpr hane
    simp [hlp, combine_pairs_loop]
  have hpos :
      0 < (combine_pairs_loop cfg fs (l ++ [(pm, ps)]).length 0
        (l ++ [(pm, ps)])).length := by
    rw [key]
    simp only [List.length_append]
    have := List.length_pos.mpr hane
    omega
  refine ⟨combine_pairs_loop cfg fs (l ++ [(pm, ps)]).length 0 (l ++ [(pm, ps)]),
    ?_, ?_⟩
  · unfold combine_multiple_pairs
    simp only [List.isEmpty_eq_false.mpr hne, if_false, Bool.false_eq_true]
    have htot : (l ++ [(pm, ps)]).length = l.length + 1 := by simp
    rw [htot] at hpos
    simp [List.length_pos.mp hpos]
  · refine ⟨s.getLast hs', ?_⟩
    rw [key, ha]
    simp [List.getLast?_append, List.getLast?_map,
      List.getLast?_eq_getLast s hs']

/-! ## Claim C4 -/

/-- C4: `_combine_multiple_pairs` returns none on an empty pair list and when
every pair fails to combine; when at least one pair succeeds it returns the
concatenation, in original order, of exactly the successful pairs' combined
audio (failed pairs contributing nothing). -/
theorem C4_combine_outcomes (cfg : AudioConfig) (fs : ClipStore)
    (pairs : List (AudioPath × AudioPath)) :
    combine_multiple_pairs cfg fs [] = none ∧
    ((∀ p ∈ pairs, ∀ b, combine_translation_pair cfg fs p.1 p.2 b = none) →
      combine_multiple_pairs cfg fs pairs = none) ∧
    ((∃ jp ∈ pairs.enum, pair_result cfg fs pairs.length jp.1 jp.2 ≠ none) →
      combine_multiple_pairs cfg fs pairs =
        some ((pairs.enum.map
          (fun jp => (pair_result cfg fs pairs.length jp.1 jp.2).getD [])).flatten)) := by
  refine ⟨rfl, ?_, ?_⟩
  · intro hfail
    cases pairs with
    | nil => rfl
    | cons hd tl =>
      have hzero : ∀ jp ∈ (hd :: tl).enum,
          (pair_result cfg fs (hd :: tl).length jp.1 jp.2).getD [] =
            ([] : AudioSeg) := by
        intro jp hmem
        obtain ⟨j, p⟩ := jp
        have hp : p ∈ hd :: tl := by
          obtain ⟨-, -, h3⟩ := List.mem_enumFrom hmem
          exact h3 ▸ List.getElem_mem _
        rw [pair_result, hfail p hp]
        rfl
      have hlen : (combine_pairs_loop cfg fs (hd :: tl).length 0
          (hd :: tl)).length = 0 := by
        rw [combine_pairs_loop_eq_flatten, List.length_flatten]
        apply List.sum_eq_zero
        intro x hx
        simp only [List.map_map, List.mem_map, Function.comp] at hx
        obtain ⟨jp, hjp, rfl⟩ := hx
        rw [hzero jp hjp]
        rfl
      have hnil : combine_pairs_loop cfg fs (tl.length + 1) 0 (hd :: tl) = [] := by
        simp only [List.length_cons] at hlen
        exact List.length_eq_zero.mp hlen
      unfold combine_multiple_pairs
      simp only [List.isEmpty_cons, Bool.false_eq_true, if_false]
      simp [hnil]
  · rintro ⟨jp, hjp, hsucc⟩
    cases pairs with
    | nil => simp [List.enum] at hjp
    | cons hd tl =>
      obtain ⟨a, hea⟩ := Option.ne_none_iff_exists'.mp hsucc
      have hane : a ≠ [] := combine_translation_pair_some_ne_nil hea
      have hmem : ((pair_result cfg fs (hd :: tl).length jp.1 jp.2).getD
          []).length ∈ ((hd :: tl).enum.map
            (fun jp => (pair_result cfg fs (hd :: tl).length jp.1 jp.2).getD
              [])).map List.length := by
        exact List.mem_map_of_mem _ (List.mem_map_of_mem _ hjp)
      have hle := List.single_le_sum (fun (x : Nat) _ => Nat.zero_le x) _ hmem
      have hpos : 0 < (combine_pairs_loop cfg fs (hd :: tl).length 0
          (hd :: tl)).length := by
        rw [combine_pairs_loop_eq_flatten, List.length_flatten]
        have : 0 < ((pair_result cfg fs (hd :: tl).length jp.1 jp.2).getD
            []).length := by
          rw [hea]
          exact List.length_pos.mpr hane
        calc 0 < ((pair_result cfg fs (hd :: tl).length jp.1 jp.2).getD
            []).length := this
          _ ≤ _ := hle
      unfold combine_multiple_pairs
      simp only [List.isEmpty_cons, Bool.false_eq_true, if_false]
      rw [combine_pairs_loop_eq_flatten]
      have henum : (hd :: tl).enum = List.enumFrom 0 (hd :: tl) := rfl
      rw [← henum]
      simp only [List.length_cons] at hpos ⊢
      rw [combine_pairs_loop_eq_flatten, ← henum] at hpos
      rw [if_pos hpos]

/-- Witness for C4: the empty batch, a batch whose two pairs both fail, and a
batch whose first pair fails but second succeeds, over `exStore`. -/
theorem C4_combine_outcomes_witness :
    combine_multiple_pairs exCfg exStore [] = none ∧
    combine_multiple_pairs exCfg exStore [(2, 3), (4, 5)] = none ∧
    combine_multiple_pairs exCfg exStore [(2, 3), (0, 1)] =
      some ((([(2, 3), (0, 1)] : List (AudioPath × AudioPath)).enum.map
        (fun jp => (pair_result exCfg exStore
          ([(2, 3), (0, 1)] : List (AudioPath × AudioPath)).length
          jp.1 jp.2).getD [])).flatten) :=
  ⟨(C4_combine_outcomes exCfg exStore []).1,
    (C4_combine_outcomes exCfg exStore [(2, 3), (4, 5)]).2.1 (by decide),
    (C4_combine_outcomes exCfg exStore [(2, 3), (0, 1)]).2.2
      ⟨(1, (0, 1)), by decide, by decide⟩⟩

/-! ## Claim C9 -/

/-- C9: `process_translation_batch` deletes the per-pair clip files exactly
when the export succeeded and `keep_individual` is false; when the combine
step or the export fails it returns false and leaves every clip file
untouched, and with `keep_individual` the files are kept even on success. -/
theorem C9_cleanup_frame (cfg : AudioConfig) (fs : ClipStore) (save_ok : Bool)
    (pairs : List (AudioPath × AudioPath)) (keep_individual : Bool) :
    (combine_multiple_pairs cfg fs pairs = none →
      process_translation_batch cfg fs save_ok pairs keep_individual =
        (false, fs)) ∧
    (save_ok = false →
      process_translation_batch cfg fs save_ok pairs keep_individual =
        (false, fs)) ∧
    (keep_individual = true →
      (process_translation_batch cfg fs save_ok pairs keep_individual).2 = fs) ∧
    (combine_multiple_pairs cfg fs pairs ≠ none → save_ok = true →
      keep_individual = false →
      process_translation_batch cfg fs save_ok pairs keep_individual =
        (true, delete_pair_files fs pairs) ∧
      (∀ q ∈ pairs, delete_pair_files fs pairs q.1 = none ∧
        delete_pair_files fs pairs q.2 = none) ∧
      (∀ x, (∀ q ∈ pairs, q.1 ≠ x ∧ q.2 ≠ x) →
        delete_pair_files fs pairs x = fs x)) := by
  refine ⟨?_, ?_, ?_, ?_⟩
  · intro hnone
    simp [process_translation_batch, hnone]
  · intro hsave
    subst hsave
    unfold process_translation_batch
    cases combine_multiple_pairs cfg fs pairs <;> simp
  · intro hkeep
    subst hkeep
    unfold process_translation_batch
    cases combine_multiple_pairs cfg fs pairs <;> simp
  · intro hsome hsave hkeep
    subst hsave hkeep
    obtain ⟨t, ht⟩ := Option.ne_none_iff_exists'.mp hsome
    refine ⟨by simp [process_translation_batch, ht], ?_, ?_⟩
    · intro q hq
      constructor
      · unfold delete_pair_files
        have : pairs.any (fun r => r.1 = q.1 || r.2 = q.1) = true :=
          List.any_eq_true.mpr ⟨q, hq, by simp⟩
        simp [this]
      · unfold delete_pair_files
        have : pairs.any (fun r => r.1 = q.2 || r.2 = q.2) = true :=
          List.any_eq_true.mpr ⟨q, hq, by simp⟩
        simp [this]
    · intro x hx
      unfold delete_pair_files
      have : pairs.any (fun r => r.1 = x || r.2 = x) = false := by
        rw [List.any_eq_false]
        intro r hr
        have := hx r hr
        simp [this.1, this.2]
      simp [this]

/-- Witness for C9 at concrete batches over `exStore`: failing export,
keep-individual run, successful cleanup run, and failing combine. -/
theorem C9_cleanup_frame_witness :
    process_translation_batch exCfg exStore false [(0, 1)] false =
      (false, exStore) ∧
    (process_translation_batch exCfg exStore true [(0, 1)] true).2 = exStore ∧
    process_translation_batch exCfg exStore true [(0, 1)] false =
      (true, delete_pair_files exStore [(0, 1)]) ∧
    delete_pair_files exStore [(0, 1)] 0 = none ∧
    delete_pair_files exStore [(0, 1)] 1 = none ∧
    delete_pair_files exStore [(0, 1)] 7 = exStore 7 ∧
    process_translation_batch exCfg exStore true [(2, 3)] false =
      (false, exStore) := by
  have hd := (C9_cleanup_frame exCfg exStore true [(0, 1)] false).2.2.2
    (by decide) rfl rfl
  exact ⟨(C9_cleanup_frame exCfg exStore false [(0, 1)] false).2.1 rfl,
    (C9_cleanup_frame exCfg exStore true [(0, 1)] true).2.2.1 rfl,
    hd.1,
    (hd.2.1 (0, 1) (by simp)).1,
    (hd.2.1 (0, 1) (by simp)).2,
    hd.2.2 7 (by decide),
    (C9_cleanup_frame exCfg exStore true [(2, 3)] false).1 (by decide)⟩

/-- Witness for the amended C3 at a one-pair batch whose (last) pair
succeeds. -/
theorem C3_no_trailing_gap_witness :
    ∃ t, combine_multiple_pairs exCfg exStore [(0, 1)] = some t ∧
      ∃ v, t.getLast? = some (Sample.fromClip v) :=
  C3_no_trailing_gap exCfg exStore [(0, 1)] (0, 1)
    [Sample.fromClip 5, Sample.gap, Sample.gap, Sample.fromClip 6]
    (by decide) (by decide)


/-! ## Lemmas about the fallback dispatcher -/

lemma addMissing_nil (acc : List Str) : addMissing acc [] = acc := rfl

lemma addMissing_cons (acc : List Str) (e : Str) (rest : List Str) :
    addMissing acc (e :: rest) =
      addMissing (if acc.contains e then acc else acc ++ [e]) rest := rfl

lemma addMissing_singleton (acc : List Str) (e : Str) :
    addMissing acc [e] = if acc.contains e then acc else acc ++ [e] := rfl

lemma mem_addMissing_left {a : Str} :
    ∀ (l acc : List Str), a ∈ acc → a ∈ addMissing acc l := by
  intro l
  induction l with
  | nil => intro acc h; exact h
  | cons e rest ih =>
    intro acc h
    rw [addMissing_cons]
    by_cases he : acc.contains e = true
    · rw [if_pos he]
      exact ih acc h
    · rw [if_neg he]
      exact ih _ (List.mem_append_left _ h)

lemma mem_addMissing_right {a : Str} :
    ∀ (l acc : List Str), a ∈ l → a ∈ addMissing acc l := by
  intro l
  induction l with
  | nil => intro acc h; exact absurd h (List.not_mem_nil a)
  | cons e rest ih =>
    intro acc h
    rw [addMissing_cons]
    rcases List.mem_cons.mp h with rfl | h'
    · by_cases he : acc.contains a = true
      · rw [if_pos he]
        exact mem_addMissing_left rest acc (by simpa using he)
      · rw [if_neg he]
        exact mem_addMissing_left rest _ (by simp)
    · by_cases he : acc.contains e = true
      · rw [if_pos he]
        exact ih acc h'
      · rw [if_neg he]
        exact ih _ h'

lemma addMissing_nodup : ∀ (l acc : List Str), acc.Nodup →
    (addMissing acc l).Nodup := by
  intro l
  induction l with
  | nil => intro acc h; exact h
  | cons e rest ih =>
    intro acc h
    rw [addMissing_cons]
    by_cases he : acc.contains e = true
    · rw [if_pos he]
      exact ih acc h
    · rw [if_neg he]
      refine ih _ ?_
      rw [List.nodup_append]
      refine ⟨h, List.nodup_singleton e, ?_⟩
      intro x hx hx'
      simp only [List.mem_singleton] at hx'
      subst hx'
      exact he (by simpa using hx)

lemma addMissing_append : ∀ (l₁ l₂ acc : List Str),
    addMissing acc (l₁ ++ l₂) = addMissing (addMissing acc l₁) l₂ := by
  intro l₁
  induction l₁ with
  | nil => intro l₂ acc; rfl
  | cons e rest ih =>
    intro l₂ acc
    rw [List.cons_append, addMissing_cons, addMissing_cons]
    exact ih _ _

lemma addMissing_addMissing : ∀ (l₂ l₁ acc : List Str),
    addMissing acc (addMissing l₁ l₂) = addMissing (addMissing acc l₁) l₂ := by
  intro l₂
  induction l₂ with
  | nil => intro l₁ acc; rfl
  | cons e rest ih =>
    intro l₁ acc
    rw [addMissing_cons l₁ e rest]
    by_cases he : l₁.contains e = true
    · rw [if_pos he, ih, addMissing_cons]
      have heA : (addMissing acc l₁).contains e = true := by
        have hm : e ∈ addMissing acc l₁ :=
          mem_addMissing_right l₁ acc (by simpa using he)
        simpa using hm
      rw [if_pos heA]
    · rw [if_neg he, ih, addMissing_append, addMissing_singleton,
        addMissing_cons]

lemma try_engines_eq (gen : Str → Bool) (engines : List Str) :
    ∀ order, try_engines gen engines order =
      ((order.filter (fun e => engines.contains e)).any gen,
        attempts_spec gen (order.filter (fun e => engines.contains e))) := by
  intro order
  induction order with
  | nil => rfl
  | cons e rest ih =>
    by_cases he : e ∈ engines
    · by_cases hg : gen e = true
      · simp [try_engines, he, hg, List.filter_cons, attempts_spec]
      · simp [try_engines, he, hg, ih, List.filter_cons, attempts_spec]
    · simp [try_engines, he, ih, List.filter_cons]

lemma attempts_spec_sublist (gen : Str → Bool) :
    ∀ l, (attempts_spec gen l).Sublist l := by
  intro l
  induction l with
  | nil => exact List.Sublist.refl []
  | cons e rest ih =>
    by_cases hg : gen e = true
    · simp only [attempts_spec, hg, if_true]
      exact (List.nil_sublist rest).cons₂ e
    · simp only [attempts_spec, hg, Bool.false_eq_true, if_false]
      exact ih.cons₂ e

lemma attempts_spec_any (gen : Str → Bool) :
    ∀ l, l.any gen = true ↔ ∃ e ∈ attempts_spec gen l, gen e = true := by
  intro l
  induction l with
  | nil => simp [attempts_spec]
  | cons e rest ih =>
    by_cases hg : gen e = true
    · simp [attempts_spec, hg]
    · simp only [List.any_cons, hg, Bool.false_or, attempts_spec,
        Bool.false_eq_true, if_false, ih]
      constructor
      · rintro ⟨x, hx, hgx⟩
        exact ⟨x, List.mem_cons_of_mem _ hx, hgx⟩
      · rintro ⟨x, hx, hgx⟩
        rcases List.mem_cons.mp hx with rfl | hx'
        · exact absurd hgx hg
        · exact ⟨x, hx', hgx⟩

lemma attempts_spec_dropLast (gen : Str → Bool) :
    ∀ l, ∀ e ∈ (attempts_spec gen l).dropLast, gen e = false := by
  intro l
  induction l with
  | nil => intro e he; simp [attempts_spec] at he
  | cons x rest ih =>
    intro e he
    by_cases hg : gen x = true
    · simp only [attempts_spec, hg, if_true, List.dropLast_single] at he
      exact absurd he (List.not_mem_nil e)
    · simp only [attempts_spec, hg, Bool.false_eq_true, if_false] at he
      cases ha : attempts_spec gen rest with
      | nil => rw [ha] at he; simp at he
      | cons y ys =>
        rw [ha, List.dropLast_cons_of_ne_nil (by simp)] at he
        rcases List.mem_cons.mp he with rfl | he'
        · exact Bool.eq_false_iff.mpr hg
        · exact ih e (ha ▸ he')

lemma preferred_part_some (st : ManagerState) (pv : Str) :
    preferred_part st (some pv) =
      if (!pv.isEmpty && st.available_engines.contains pv) = true then [pv]
      else [] := rfl

lemma default_part_some (st : ManagerState) (o1 : List Str) (dv : Str)
    (hdef : st.cfg.default_engine = some dv) :
    default_part st o1 =
      if (!dv.isEmpty && !o1.contains dv) = true then o1 ++ [dv] else o1 := by
  unfold default_part
  rw [hdef]

lemma default_part_none (st : ManagerState) (o1 : List Str)
    (hdef : st.cfg.default_engine = none) : default_part st o1 = o1 := by
  unfold default_part
  rw [hdef]

lemma preferred_part_nodup (st : ManagerState) (preferred : Option Str) :
    (preferred_part st preferred).Nodup := by
  rcases preferred with _ | pv
  · exact List.nodup_nil
  · rw [preferred_part_some]
    by_cases hc : (!pv.isEmpty && st.available_engines.contains pv) = true
    · rw [if_pos hc]
      exact List.nodup_singleton pv
    · rw [if_neg hc]
      exact List.nodup_nil

lemma default_part_nodup (st : ManagerState) (o1 : List Str)
    (ho1 : o1.Nodup) : (default_part st o1).Nodup := by
  rcases hdef : st.cfg.default_engine with _ | dv
  · rw [default_part_none st o1 hdef]
    exact ho1
  · rw [default_part_some st o1 dv hdef]
    by_cases hc : (!dv.isEmpty && !o1.contains dv) = true
    · rw [if_pos hc, List.nodup_append]
      refine ⟨ho1, List.nodup_singleton dv, ?_⟩
      intro x hx hx'
      simp only [List.mem_singleton] at hx'
      subst hx'
      have h2 : o1.contains x = false := by
        rcases (Bool.and_eq_true ..).mp hc with ⟨-, h2⟩
        simpa using h2
      have h3 : o1.contains x = true := by simpa using hx
      rw [h2] at h3
      exact Bool.false_ne_true h3
    · rw [if_neg hc]
      exact ho1

lemma build_engine_order_nodup (st : ManagerState) (preferred : Option Str) :
    (build_engine_order st preferred).Nodup := by
  unfold build_engine_order
  exact addMissing_nodup _ _
    (default_part_nodup st _ (preferred_part_nodup st preferred))

lemma spec_preferred_part_some (st : ManagerState) (pv : Str) :
    spec_preferred_part st (some pv) =
      if st.available_engines.contains pv then [pv] else [] := rfl

lemma spec_preferred_eq (st : ManagerState) (preferred : Option Str)
    (hp : preferred ≠ some []) :
    addMissing [] (spec_preferred_part st preferred) =
      preferred_part st preferred := by
  rcases preferred with _ | pv
  · rfl
  · have hpv : pv ≠ [] := fun h => hp (by rw [h])
    have hie : pv.isEmpty = false := List.isEmpty_eq_false.mpr hpv
    by_cases hc : st.available_engines.contains pv = true
    · rw [spec_preferred_part_some, if_pos hc, preferred_part_some]
      have hc' : pv ∈ st.available_engines := by simpa using hc
      simp [addMissing_singleton, hie, hc']
    · rw [spec_preferred_part_some, if_neg hc, preferred_part_some]
      simp only [addMissing_nil]
      have hc' : pv ∉ st.available_engines := fun h => hc (by simpa using h)
      simp [hc']

lemma spec_default_eq (st : ManagerState) (o1 : List Str)
    (hd : st.cfg.default_engine ≠ some []) :
    addMissing o1 (spec_default_part st) = default_part st o1 := by
  rcases hdef : st.cfg.default_engine with _ | dv
  · have h1 : spec_default_part st = [] := by
      unfold spec_default_part
      rw [hdef]
    rw [h1, addMissing_nil, default_part_none st o1 hdef]
  · have hdv : dv ≠ [] := fun h => hd (by rw [hdef, h])
    have hie : dv.isEmpty = false := List.isEmpty_eq_false.mpr hdv
    have h1 : spec_default_part st = [dv] := by
      unfold spec_default_part
      rw [hdef]
    rw [h1, addMissing_singleton, default_part_some st o1 dv hdef]
    by_cases hc : o1.contains dv = true
    · rw [if_pos hc]
      have hc' : dv ∈ o1 := by simpa using hc
      simp [hie, hc']
    · rw [if_neg hc]
      have hc' : dv ∉ o1 := fun h => hc (by simpa using h)
      simp [hie, hc']

lemma build_engine_order_eq_spec (st : ManagerState) (preferred : Option Str)
    (hp : preferred ≠ some []) (hd : st.cfg.default_engine ≠ some []) :
    build_engine_order st preferred = spec_candidate_order st preferred := by
  unfold spec_candidate_order dedupKeepFirst
  rw [addMissing_append, addMissing_append, addMissing_append,
    spec_preferred_eq st preferred hp, spec_default_eq st _ hd]
  unfold build_engine_order get_fallback_engines
  rw [addMissing_addMissing]

/-! ## Claim C2 -/

/-- C2: `generate_with_fallback` tries exactly the specification's candidate
order (preferred if available, then the configured default if not already
included, then the available-filtered fallback order, then the remaining
available engines in registry order); each available engine is attempted at
most once, only the last attempted engine can have succeeded, the call
returns true iff some attempted engine succeeded and false iff every
attempted engine failed. -/
theorem C2_generate_with_fallback (st : ManagerState) (gen : Str → Bool)
    (preferred : Option Str) (hp : preferred ≠ some [])
    (hd : st.cfg.default_engine ≠ some []) :
    build_engine_order st preferred = spec_candidate_order st preferred ∧
    (attempted_engines st gen preferred).Nodup ∧
    (∀ e ∈ attempted_engines st gen preferred, e ∈ st.available_engines) ∧
    (generate_with_fallback st gen preferred = true ↔
      ∃ e ∈ attempted_engines st gen preferred, gen e = true) ∧
    (∀ e ∈ (attempted_engines st gen preferred).dropLast, gen e = false) ∧
    (generate_with_fallback st gen preferred = false ↔
      ∀ e ∈ attempted_engines st gen preferred, gen e = false) := by
  have htry := try_engines_eq gen st.available_engines
    (build_engine_order st preferred)
  have hatt : attempted_engines st gen preferred =
      attempts_spec gen ((build_engine_order st preferred).filter
        (fun e => st.available_engines.contains e)) := by
    unfold attempted_engines
    rw [htry]
  have hgen : generate_with_fallback st gen preferred =
      ((build_engine_order st preferred).filter
        (fun e => st.available_engines.contains e)).any gen := by
    unfold generate_with_fallback
    rw [htry]
  refine ⟨build_engine_order_eq_spec st preferred hp hd, ?_, ?_, ?_, ?_, ?_⟩
  · rw [hatt]
    exact (attempts_spec_sublist gen _).nodup
      ((build_engine_order_nodup st preferred).filter _)
  · intro e he
    rw [hatt] at he
    have h1 := (attempts_spec_sublist gen _).subset he
    have h2 := List.of_mem_filter h1
    simpa using h2
  · rw [hatt, hgen]
    exact attempts_spec_any gen _
  · rw [hatt]
    exact attempts_spec_dropLast gen _
  · rw [hatt, hgen]
    constructor
    · intro hfalse e he
      by_contra hg
      have h1 : ∃ x ∈ attempts_spec gen ((build_engine_order st preferred).filter
          (fun e => st.available_engines.contains e)), gen x = true :=
        ⟨e, he, (Bool.not_eq_false _).mp hg⟩
      rw [← attempts_spec_any gen _] at h1
      rw [h1] at hfalse
      exact absurd hfalse (by simp)
    · intro hall
      by_contra htrue
      have h1 : ((build_engine_order st preferred).filter
          (fun e => st.available_engines.contains e)).any gen = true :=
        (Bool.not_eq_false _).mp htrue
      obtain ⟨e, he, hg⟩ := (attempts_spec_any gen _).mp h1
      rw [hall e he] at hg
      exact absurd hg (by simp)

/-- Witness for C2 at a concrete manager state in which only `gtts`
succeeds and `edge-tts` is preferred. -/
theorem C2_generate_with_fallback_witness :
    build_engine_order exManagerState (some (str "edge-tts")) =
      spec_candidate_order exManagerState (some (str "edge-tts")) ∧
    (attempted_engines exManagerState exGen (some (str "edge-tts"))).Nodup ∧
    (∀ e ∈ attempted_engines exManagerState exGen (some (str "edge-tts")),
      e ∈ exManagerState.available_engines) ∧
    (generate_with_fallback exManagerState exGen (some (str "edge-tts")) = true ↔
      ∃ e ∈ attempted_engines exManagerState exGen (some (str "edge-tts")),
        exGen e = true) ∧
    (∀ e ∈ (attempted_engines exManagerState exGen
        (some (str "edge-tts"))).dropLast, exGen e = false) ∧
    (generate_with_fallback exManagerState exGen (some (str "edge-tts")) = false ↔
      ∀ e ∈ attempted_engines exManagerState exGen (some (str "edge-tts")),
        exGen e = false) :=
  C2_generate_with_fallback exManagerState exGen (some (str "edge-tts"))
    (by decide) (by decide)

/-! ## Lemmas about the engines -/

lemma edge_get_default_voice_ok (conf : Str → Option Str)
    (cat : List EdgeVoiceInfo) (lang : Str) :
    ∃ o, edge_get_default_voice conf (.ok cat) lang = .ok o :=
  ⟨_, rfl⟩

lemma edge_resolve_ok (env : EdgeEnv) (lang : Str)
    (cat : List EdgeVoiceInfo) (hc : env.catalog = Except.ok cat)
    (hm : env.mkdir_ok = true) :
    ∃ b, (edge_resolve_and_synthesize env lang).result = .ok b := by
  unfold edge_resolve_and_synthesize
  obtain ⟨o, ho⟩ := edge_get_default_voice_ok env.configured_voices cat lang
  rw [hc, ho]
  cases o with
  | none => exact ⟨false, rfl⟩
  | some v =>
    unfold edge_synthesize
    rw [hm]
    exact ⟨env.synth_ok v, rfl⟩

/-! ## Claim C5 -/

/-- C5 (counterexample): `EdgeTTSEngine.generate_speech` raises instead of
returning false when the voice-catalog fetch inside default-voice resolution
fails — the fetch is outside every `try`. -/
theorem C5_counterexample :
    (edge_generate_speech
      ⟨fun _ => none, Except.error (), true, fun _ => true⟩
      (str "en") none).result = Except.error () := rfl

/-- C5 (amended): `GTTSEngine.generate_speech` indeed returns a boolean and
never raises on any failure; `EdgeTTSEngine.generate_speech` returns a
boolean whenever the catalog fetch and the output-directory creation
succeed, but propagates an exception when the catalog fetch fails during
voice resolution or when `mkdir` fails — both are outside its `try`
blocks. -/
theorem C5_engine_failure_modes (genv : GttsEnv) (env : EdgeEnv)
    (lang : Str) (voice : Option Str) (cat : List EdgeVoiceInfo) (v : Str) :
    (∃ b, gtts_generate_speech genv lang = .ok b) ∧
    (env.catalog = Except.ok cat → env.mkdir_ok = true →
      ∃ b, (edge_generate_speech env lang voice).result = .ok b) ∧
    (env.catalog = Except.error () →
      (edge_generate_speech env lang none).result = Except.error ()) ∧
    (env.mkdir_ok = false → v ≠ [] →
      (edge_generate_speech env lang (some v)).result = Except.error ()) := by
  refine ⟨?_, ?_, ?_, ?_⟩
  · unfold gtts_generate_speech
    cases gtts_get_language_code genv lang with
    | none => exact ⟨false, rfl⟩
    | some c => exact ⟨genv.mkdir_ok && genv.save_ok, rfl⟩
  · intro hc hm
    rcases voice with _ | v'
    · exact edge_resolve_ok env lang cat hc hm
    · show ∃ b, (if v'.isEmpty = true then edge_resolve_and_synthesize env lang
          else edge_synthesize env v').result = .ok b
      by_cases hv : v'.isEmpty = true
      · rw [if_pos hv]
        exact edge_resolve_ok env lang cat hc hm
      · rw [if_neg hv]
        unfold edge_synthesize
        rw [hm]
        exact ⟨env.synth_ok v', rfl⟩
  · intro hc
    show (edge_resolve_and_synthesize env lang).result = Except.error ()
    unfold edge_resolve_and_synthesize edge_get_default_voice edge_get_voices
    rw [hc]
  · intro hm hv
    have hv' : v.isEmpty = false := List.isEmpty_eq_false.mpr hv
    show (if v.isEmpty = true then edge_resolve_and_synthesize env lang
        else edge_synthesize env v).result = Except.error ()
    rw [if_neg (by simp [hv'])]
    unfold edge_synthesize
    rw [hm]
    simp

/-- Witness for the amended C5 at concrete environments. -/
theorem C5_engine_failure_modes_witness :
    (∃ b, gtts_generate_speech ⟨[str "en"], true, true⟩ (str "en") = .ok b) ∧
    (∃ b, (edge_generate_speech
      ⟨fun _ => none, Except.ok [], true, fun _ => false⟩
      (str "en") none).result = .ok b) ∧
    (edge_generate_speech
      ⟨fun _ => none, Except.error (), true, fun _ => true⟩
      (str "en") none).result = Except.error () ∧
    (edge_generate_speech
      ⟨fun _ => none, Except.ok [], false, fun _ => true⟩
      (str "en") (some (str "voice"))).result = Except.error () := by
  have h1 := C5_engine_failure_modes ⟨[str "en"], true, true⟩
    ⟨fun _ => none, Except.ok [], true, fun _ => false⟩
    (str "en") none [] (str "voice")
  have h2 := C5_engine_failure_modes ⟨[str "en"], true, true⟩
    ⟨fun _ => none, Except.error (), true, fun _ => true⟩
    (str "en") none [] (str "voice")
  have h3 := C5_engine_failure_modes ⟨[str "en"], true, true⟩
    ⟨fun _ => none, Except.ok [], false, fun _ => true⟩
    (str "en") none [] (str "voice")
  exact ⟨h1.1, h1.2.1 rfl rfl, h2.2.2.1 rfl, h3.2.2.2 rfl (by decide)⟩

/-! ## Claim C6 -/

lemma edge_filter_some_iff (lang : Str) (info : EdgeVoiceInfo) (v : Str) :
    (if (strLower lang ++ [Char.ofNat 45]).isPrefixOf (strLower info.locale) then
      match info.shortName with
      | some sn => if sn.isEmpty then none else some sn
      | none => none
    else none) = some v ↔
    info.shortName = some v ∧ v ≠ [] ∧
      (strLower lang ++ [Char.ofNat 45]).isPrefixOf (strLower info.locale) = true := by
  by_cases hpre : (strLower lang ++ [Char.ofNat 45]).isPrefixOf
      (strLower info.locale) = true
  · rw [if_pos hpre]
    cases hsn : info.shortName with
    | none => simp [hpre]
    | some sn =>
      show (if sn.isEmpty = true then (none : Option Str) else some sn) =
          some v ↔
        some sn = some v ∧ v ≠ [] ∧
          (strLower lang ++ [Char.ofNat 45]).isPrefixOf (strLower info.locale) =
            true
      by_cases he : sn.isEmpty = true
      · rw [if_pos he]
        have hsn' : sn = [] := List.isEmpty_iff.mp he
        subst hsn'
        simp [hpre]
      · rw [if_neg he]
        have hsn' : sn ≠ [] := fun h => he (by simp [h])
        simp [hpre]
        intro hv
        rw [← hv]
        exact hsn'
  · rw [if_neg hpre]
    simp [hpre]

/-- C6 (counterexample): Edge's voice lookup neither does exact matching nor
absorbs lookup errors — a catalog fetch failure propagates as an exception
out of `get_voices`, and a fully region-qualified language code (`en-US`)
matches no voice even when the catalog holds a voice with exactly that
locale, because the filter demands the prefix `en-us-`. -/
theorem C6_counterexample :
    edge_get_voices (Except.error ()) (str "en") = Except.error () ∧
    edge_get_voices (Except.ok [⟨str "en-US", some (str "Aria")⟩])
      (str "en-US") = Except.ok [] := ⟨rfl, rfl⟩

/-- C6 (amended): Edge's `get_voices` returns exactly the truthy short names
of catalog voices whose lowered locale starts with `language.lower() + "-"`,
and propagates a catalog lookup failure as an exception; Piper's returns the
listed voices starting with `language + "_"` (case-sensitively) and the
empty list on any lookup error; Coqui's returns the cached models matched by
its language filter (multilingual models included unconditionally) and the
empty list on lookup errors. -/
theorem C6_get_voices_matching (lang : Str) (cat : List EdgeVoiceInfo)
    (out : List Str) (fetched : Option (List Str)) :
    (edge_get_voices (Except.error ()) lang = Except.error ()) ∧
    (∃ vs, edge_get_voices (Except.ok cat) lang = Except.ok vs ∧
      ∀ v, v ∈ vs ↔ ∃ info ∈ cat, info.shortName = some v ∧ v ≠ [] ∧
        (strLower lang ++ [Char.ofNat 45]).isPrefixOf (strLower info.locale) =
          true) ∧
    (piper_get_voices ⟨none⟩ lang = []) ∧
    (∀ v, v ∈ piper_get_voices ⟨some out⟩ lang ↔
      v ∈ out ∧ (lang ++ [Char.ofNat 95]).isPrefixOf v = true) ∧
    (∀ m, m ∈ coqui_get_voices fetched lang ↔
      m ∈ coqui_list_available_models fetched ∧
        coqui_model_matches lang m = true) := by
  refine ⟨rfl, ⟨_, rfl, ?_⟩, rfl, ?_, ?_⟩
  · intro v
    rw [List.mem_filterMap]
    constructor
    · rintro ⟨info, hi, hf⟩
      exact ⟨info, hi, (edge_filter_some_iff lang info v).mp hf⟩
    · rintro ⟨info, hi, h⟩
      exact ⟨info, hi, (edge_filter_some_iff lang info v).mpr h⟩
  · intro v
    unfold piper_get_voices
    rw [List.mem_filter]
  · intro m
    unfold coqui_get_voices
    rw [List.mem_filter]

/-! ## Claim C7 -/

lemma resolve_default_voice_of_mem (cv : Str) (av : List Str)
    (hne : cv ≠ []) (hmem : cv ∈ av) :
    resolve_default_voice (some cv) av = some cv := by
  show (if (!cv.isEmpty && av.contains cv) = true then some cv else av.head?) =
    some cv
  rw [if_pos (by simp [List.isEmpty_eq_false.mpr hne, hmem])]

lemma resolve_default_voice_not_mem (copt : Option Str) (av : List Str)
    (h : ∀ cv, copt = some cv → cv ∉ av) :
    resolve_default_voice copt av = av.head? := by
  rcases copt with _ | cv
  · rfl
  · show (if (!cv.isEmpty && av.contains cv) = true then some cv else av.head?) =
      av.head?
    rw [if_neg]
    intro hcond
    rcases (Bool.and_eq_true ..).mp hcond with ⟨-, h2⟩
    exact h cv rfl (by simpa using h2)

lemma resolve_default_voice_nil (copt : Option Str) :
    resolve_default_voice copt [] = none := by
  rcases copt with _ | cv
  · rfl
  · show (if (!cv.isEmpty && List.contains [] cv) = true then some cv
      else List.head? []) = none
    rw [if_neg (by simp)]
    rfl

lemma edge_voices_mem_ne_nil {cat : List EdgeVoiceInfo} {lang : Str}
    {vs : List Str} {v : Str}
    (hvs : edge_get_voices (Except.ok cat) lang = Except.ok vs)
    (hv : v ∈ vs) : v ≠ [] := by
  injection hvs with h
  subst h
  obtain ⟨info, -, hf⟩ := List.mem_filterMap.mp hv
  exact ((edge_filter_some_iff lang info v).mp hf).2.1

lemma edge_get_default_voice_step (conf : Str → Option Str)
    (cat : List EdgeVoiceInfo) (lang : Str) (vs : List Str)
    (hvs : edge_get_voices (Except.ok cat) lang = Except.ok vs) :
    edge_get_default_voice conf (Except.ok cat) lang =
      Except.ok (resolve_default_voice (conf lang) vs) := by
  unfold edge_get_default_voice
  rw [hvs]

/-- C7: each engine's `get_default_voice` prefers the configured mapping when
it is among `get_voices`, otherwise falls back to the first entry of
`get_voices`, and returns none when `get_voices` is empty — in which case
`generate_speech` called without an explicit voice returns false without
invoking the synthesis transport. -/
theorem C7_default_voice (conf : Str → Option Str) (cat : List EdgeVoiceInfo)
    (lang : Str) (vs : List Str) (cv : Str) (genv : GttsEnv)
    (mkdir : Bool) (synth : Str → Bool) :
    (edge_get_voices (Except.ok cat) lang = Except.ok vs →
      conf lang = some cv → cv ∈ vs →
      edge_get_default_voice conf (Except.ok cat) lang = Except.ok (some cv)) ∧
    (edge_get_voices (Except.ok cat) lang = Except.ok vs →
      (∀ c, conf lang = some c → c ∉ vs) →
      edge_get_default_voice conf (Except.ok cat) lang =
        Except.ok vs.head?) ∧
    (edge_get_voices (Except.ok cat) lang = Except.ok [] →
      edge_get_default_voice conf (Except.ok cat) lang = Except.ok none ∧
      (edge_generate_speech ⟨conf, Except.ok cat, mkdir, synth⟩ lang
        none).result = Except.ok false ∧
      (edge_generate_speech ⟨conf, Except.ok cat, mkdir, synth⟩ lang
        none).synthAttempted = false) ∧
    (gtts_get_default_voice genv lang = (gtts_get_voices genv lang).head? ∧
      (gtts_get_voices genv lang = [] →
        gtts_get_default_voice genv lang = none)) := by
  refine ⟨?_, ?_, ?_, rfl, ?_⟩
  · intro hvs hconf hmem
    rw [edge_get_default_voice_step conf cat lang vs hvs, hconf,
      resolve_default_voice_of_mem cv vs (edge_voices_mem_ne_nil hvs hmem) hmem]
  · intro hvs hnot
    rw [edge_get_default_voice_step conf cat lang vs hvs,
      resolve_default_voice_not_mem (conf lang) vs hnot]
  · intro hvs0
    have hres : edge_get_default_voice conf (Except.ok cat) lang =
        Except.ok none := by
      rw [edge_get_default_voice_step conf cat lang [] hvs0,
        resolve_default_voice_nil]
    have hrun : edge_generate_speech ⟨conf, Except.ok cat, mkdir, synth⟩ lang
        none = ⟨Except.ok false, false⟩ := by
      show edge_resolve_and_synthesize ⟨conf, Except.ok cat, mkdir, synth⟩
        lang = ⟨Except.ok false, false⟩
      unfold edge_resolve_and_synthesize
      rw [show (⟨conf, Except.ok cat, mkdir, synth⟩ : EdgeEnv).catalog =
        Except.ok cat from rfl]
      rw [show (⟨conf, Except.ok cat, mkdir, synth⟩ : EdgeEnv).configured_voices =
        conf from rfl]
      rw [hres]
    exact ⟨hres, by rw [hrun], by rw [hrun]⟩
  · intro h
    unfold gtts_get_default_voice base_get_default_voice
    rw [h]
    rfl

/-- Witness for C7: configured voice present, configured voice absent, empty
catalog (with a no-synthesis `generate_speech` call), and the inherited
first-voice default of gTTS. -/
theorem C7_default_voice_witness :
    edge_get_default_voice
      (fun l => if l == str "en" then some (str "B") else none)
      (Except.ok [⟨str "en-US", some (str "A")⟩, ⟨str "en-GB", some (str "B")⟩])
      (str "en") = Except.ok (some (str "B")) ∧
    edge_get_default_voice (fun _ => some (str "Z"))
      (Except.ok [⟨str "en-US", some (str "A")⟩, ⟨str "en-GB", some (str "B")⟩])
      (str "en") = Except.ok ([str "A", str "B"].head?) ∧
    edge_get_default_voice (fun _ => none) (Except.ok []) (str "en") =
      Except.ok none ∧
    (edge_generate_speech ⟨fun _ => none, Except.ok [], true, fun _ => true⟩
      (str "en") none).result = Except.ok false ∧
    (edge_generate_speech ⟨fun _ => none, Except.ok [], true, fun _ => true⟩
      (str "en") none).synthAttempted = false ∧
    gtts_get_default_voice ⟨[str "en"], true, true⟩ (str "xx") =
      (gtts_get_voices ⟨[str "en"], true, true⟩ (str "xx")).head? ∧
    gtts_get_default_voice ⟨[str "en"], true, true⟩ (str "xx") = none := by
  have h1 := (C7_default_voice
    (fun l => if l == str "en" then some (str "B") else none)
    [⟨str "en-US", some (str "A")⟩, ⟨str "en-GB", some (str "B")⟩]
    (str "en") [str "A", str "B"] (str "B") ⟨[str "en"], true, true⟩
    true (fun _ => true)).1 rfl rfl (by decide)
  have h2 := (C7_default_voice (fun _ => some (str "Z"))
    [⟨str "en-US", some (str "A")⟩, ⟨str "en-GB", some (str "B")⟩]
    (str "en") [str "A", str "B"] (str "Z") ⟨[str "en"], true, true⟩
    true (fun _ => true)).2.1 rfl (by
      intro c hc
      have hz : some (str "Z") = some c := hc
      cases hz
      decide)
  have h3 := (C7_default_voice (fun _ => none) [] (str "en") [] (str "B")
    ⟨[str "en"], true, true⟩ true (fun _ => true)).2.2.1 rfl
  have h4 := (C7_default_voice (fun _ => none) [] (str "xx") [] (str "B")
    ⟨[str "en"], true, true⟩ true (fun _ => true)).2.2.2
  exact ⟨h1, h2, h3.1, h3.2.1, h3.2.2, h4.1, h4.2 rfl⟩

/-! ## Claim C8 -/

/-- C8: once Coqui's `tts_to_file` synthesis step completes (the temporary
WAV was fully written), the inner `try/except/finally` guarantees the
temporary file is deleted on every exit path — success, decode failure,
transcode failure, and even a missing pydub — so no intermediate file
remains after `generate_speech` returns. -/
theorem C8_coqui_temp_cleanup (env : CoquiEnv) (lang : Str)
    (voice : Option Str) (hsynth : env.synth_ok = true) :
    (coqui_generate_speech env lang voice).temp_wav_exists = false := by
  have key : ∀ r : Option Str,
      (match r with
       | none => (⟨Except.ok false, false⟩ : CoquiRun)
       | some _ =>
          if !env.mkdir_ok then ⟨Except.ok false, false⟩
          else if !env.load_model_ok then ⟨Except.ok false, false⟩
          else if !env.synth_ok then
            ⟨Except.ok false, env.synth_writes_on_raise⟩
          else if !env.pydub_ok then ⟨Except.ok false, false⟩
          else if !env.decode_ok then ⟨Except.ok false, false⟩
          else if !env.transcode_ok then ⟨Except.ok false, false⟩
          else ⟨Except.ok true, false⟩).temp_wav_exists = false := by
    intro r
    cases r with
    | none => rfl
    | some v =>
      by_cases h1 : env.mkdir_ok <;> by_cases h2 : env.load_model_ok <;>
        by_cases h3 : env.pydub_ok <;> by_cases h4 : env.decode_ok <;>
        by_cases h5 : env.transcode_ok <;>
        simp [h1, h2, h3, h4, h5, hsynth]
  exact key _

/-- Witness for C8 at an environment whose synthesis, decode and transcode
all complete. -/
theorem C8_coqui_temp_cleanup_witness :
    (coqui_generate_speech
      ⟨fun _ => some (str "tts_models/en/x"), some [str "tts_models/en/x"],
        true, true, true, false, true, true, true⟩
      (str "en") (some (str "tts_models/en/x"))).temp_wav_exists = false :=
  C8_coqui_temp_cleanup
    ⟨fun _ => some (str "tts_models/en/x"), some [str "tts_models/en/x"],
      true, true, true, false, true, true, true⟩
    (str "en") (some (str "tts_models/en/x")) rfl

/-! ## Claim C10 -/

lemma collect_item_paths_all_success (synth : Str → Str → Bool) (i : Nat) :
    ∀ fields : List ItemField, (∀ f ∈ fields, f.2 ≠ []) →
      (∀ f ∈ fields, synth f.1 f.2 = true) →
      collect_item_paths synth i fields =
        some (fields.map (fun f => (i, f.1))) := by
  intro fields
  induction fields with
  | nil => intro _ _; rfl
  | cons f fs ih =>
    intro hne hs
    obtain ⟨l, t⟩ := f
    have ht : t ≠ [] := hne (l, t) (by simp)
    have hie : t.isEmpty = false := List.isEmpty_eq_false.mpr ht
    show (if t.isEmpty = true then collect_item_paths synth i fs
      else if synth l t = true then
        (collect_item_paths synth i fs).map (((i, l)) :: ·)
      else none) = _
    rw [if_neg (by simp [hie]), if_pos (hs (l, t) (by simp)),
      ih (fun f hf => hne f (List.mem_cons_of_mem _ hf))
        (fun f hf => hs f (List.mem_cons_of_mem _ hf))]
    rfl

lemma collect_item_paths_fail (synth : Str → Str → Bool) (i : Nat) :
    ∀ fields : List ItemField, (∀ f ∈ fields, f.2 ≠ []) →
      (∃ f ∈ fields, synth f.1 f.2 = false) →
      collect_item_paths synth i fields = none := by
  intro fields
  induction fields with
  | nil =>
    rintro _ ⟨f, hf, -⟩
    exact absurd hf (List.not_mem_nil f)
  | cons f fs ih =>
    rintro hne ⟨f', hf', hsf'⟩
    obtain ⟨l, t⟩ := f
    have ht : t ≠ [] := hne (l, t) (by simp)
    have hie : t.isEmpty = false := List.isEmpty_eq_false.mpr ht
    show (if t.isEmpty = true then collect_item_paths synth i fs
      else if synth l t = true then
        (collect_item_paths synth i fs).map (((i, l)) :: ·)
      else none) = none
    rw [if_neg (by simp [hie])]
    by_cases hs : synth l t = true
    · rw [if_pos hs]
      rcases List.mem_cons.mp hf' with rfl | hmem
      · rw [hsf'] at hs
        exact absurd hs (by simp)
      · rw [ih (fun f hf => hne f (List.mem_cons_of_mem _ hf))
          ⟨f', hmem, hsf'⟩]
        rfl
    · rw [if_neg hs]

/-- C10: for an item with more than two (all non-empty) language fields, a
synthesis failure on any language excludes the whole item from the pairs
list, yet when every language succeeds only the first two clips form the
pair used for assembly — clips of the third and later languages are never
part of it. -/
theorem C10_first_two_languages (synth : Str → Str → Bool) (i : Nat)
    (f0 f1 : ItemField) (rest : List ItemField) (_hrest : rest ≠ [])
    (hne : ∀ f ∈ f0 :: f1 :: rest, f.2 ≠ [])
    (hnodup : ((f0 :: f1 :: rest).map Prod.fst).Nodup) :
    ((∃ f ∈ f0 :: f1 :: rest, synth f.1 f.2 = false) →
      item_pair synth i (f0 :: f1 :: rest) = none) ∧
    ((∀ f ∈ f0 :: f1 :: rest, synth f.1 f.2 = true) →
      item_pair synth i (f0 :: f1 :: rest) = some ((i, f0.1), (i, f1.1)) ∧
      ∀ f ∈ rest, (i, f.1) ≠ ((i, f0.1) : ClipRef) ∧
        (i, f.1) ≠ ((i, f1.1) : ClipRef)) := by
  constructor
  · intro hex
    unfold item_pair
    rw [collect_item_paths_fail synth i _ hne hex]
  · intro hall
    constructor
    · unfold item_pair
      rw [collect_item_paths_all_success synth i _ hne hall]
      rfl
    · intro f hf
      rw [List.map_cons, List.map_cons, List.nodup_cons, List.nodup_cons]
        at hnodup
      obtain ⟨h0, h1, -⟩ := hnodup
      have hfr : f.1 ∈ rest.map Prod.fst := List.mem_map_of_mem _ hf
      constructor
      · intro h
        injection h with hidx hname
        exact h0 (hname ▸ List.mem_cons_of_mem _ hfr)
      · intro h
        injection h with hidx hname
        exact h1 (hname ▸ hfr)

/-- Witness for C10 at a three-language item: a failing third language
drops the whole item, and with all languages succeeding only the first two
clips form the pair. -/
theorem C10_first_two_languages_witness :
    item_pair (fun l _ => !(l == str "turkish")) 0
      [(str "finnish", str "moi"), (str "english", str "hi"),
        (str "turkish", str "selam")] = none ∧
    item_pair (fun _ _ => true) 0
      [(str "finnish", str "moi"), (str "english", str "hi"),
        (str "turkish", str "selam")] =
      some ((0, str "finnish"), (0, str "english")) ∧
    ∀ f ∈ [(str "turkish", str "selam")],
      ((0 : Nat), f.1) ≠ (((0 : Nat), str "finnish") : ClipRef) ∧
      ((0 : Nat), f.1) ≠ (((0 : Nat), str "english") : ClipRef) := by
  have hA := (C10_first_two_languages (fun l _ => !(l == str "turkish")) 0
    (str "finnish", str "moi") (str "english", str "hi")
    [(str "turkish", str "selam")] (by decide) (by decide) (by decide)).1
    ⟨(str "turkish", str "selam"), by decide, by decide⟩
  have hB := (C10_first_two_languages (fun _ _ => true) 0
    (str "finnish", str "moi") (str "english", str "hi")
    [(str "turkish", str "selam")] (by decide) (by decide) (by decide)).2
    (fun _ _ => rfl)
  exact ⟨hA, hB.1, hB.2⟩
